import Mathlib

/-!
Verification of the Secure Credential & Request-Authorization Subsystem of
the Google-Text-to-Speech repository.

The JavaScript source is shallowly embedded: strings become `List Char` /
`String`, the regex-based replacement chains of `InputSanitizer.sanitizeText`
(src/security-fixes.js) become deterministic scanners (each of the four
regexes is backtracking-free, so a left-to-right scanner reproduces the
JavaScript `String.replace` global semantics exactly), the stateful services
(CSRF token table, credential vault, rate limiter, the `/api/synthesize`
gate of src/secure-server.js) become explicit state-passing functions, and
`Date.now()` / fresh randomness become explicit parameters.
-/

namespace TTS

/-- JavaScript whitespace (the set matched by `\s` and removed by
`String.prototype.trim`): ASCII whitespace, NBSP, the Unicode space
separators, line/paragraph separators and the BOM. -/
def isJsWs (c : Char) : Bool :=
  c = ' ' || c = '\t' || c = '\n' || c = '\r' ||
  c = Char.ofNat 11 || c = Char.ofNat 12 ||
  c = Char.ofNat 0xA0 || c = Char.ofNat 0x1680 ||
  (0x2000 ≤ c.toNat && c.toNat ≤ 0x200A) ||
  c = Char.ofNat 0x2028 || c = Char.ofNat 0x2029 ||
  c = Char.ofNat 0x202F || c = Char.ofNat 0x205F ||
  c = Char.ofNat 0x3000 || c = Char.ofNat 0xFEFF

/-- The regex word-character class `\w` = `[A-Za-z0-9_]`. -/
def isWordChar (c : Char) : Bool :=
  (('a' ≤ c && c ≤ 'z') || ('A' ≤ c && c ≤ 'Z') || ('0' ≤ c && c ≤ '9') || c = '_')

def isLowerAlpha (c : Char) : Bool := 'a' ≤ c && c ≤ 'z'

/-- Case-insensitive match of one subject character `c` against one pattern
character `p` under the `/i` flag without `/u`: the pattern characters in
this code are lowercase ASCII letters or symbols, so `c` matches iff it is
`p` itself or (for a letter) its uppercase form (code `p.toNat - 32`).
Non-unicode-mode canonicalisation never folds a non-ASCII subject character
onto an ASCII pattern character. -/
def ciMatch (p c : Char) : Bool := c = p || (isLowerAlpha p && c.toNat + 32 = p.toNat)

/-- Case-insensitive prefix test: does `l` start with pattern `pat`? -/
def startsCI : List Char → List Char → Bool
  | [], _ => true
  | _ :: _, [] => false
  | p :: ps, c :: cs => ciMatch p c && startsCI ps cs

theorem ciMatch_symbol {p c : Char} (hp : isLowerAlpha p = false) :
    ciMatch p c = true ↔ c = p := by
  simp [ciMatch, hp]

theorem startsCI_length {pat l : List Char} (h : startsCI pat l = true) :
    pat.length ≤ l.length := by
  induction pat generalizing l with
  | nil => simp
  | cons p ps ih =>
    cases l with
    | nil => simp [startsCI] at h
    | cons c cs =>
      simp only [startsCI, Bool.and_eq_true] at h
      simpa using ih h.2

/-- Scan to the first `'>'`, returning the remainder after it (the tail of a
`/<[^>]*>/` match), or `none` if no `'>'` occurs. -/
def findTagEnd : List Char → Option (List Char)
  | [] => none
  | c :: cs => if c = '>' then some cs else findTagEnd cs

theorem findTagEnd_some_length {l r : List Char} (h : findTagEnd l = some r) :
    r.length < l.length := by
  induction l with
  | nil => simp [findTagEnd] at h
  | cons c cs ih =>
    simp only [findTagEnd] at h
    split at h
    · cases h; simp
    · exact Nat.lt_trans (ih h) (by simp)

theorem findTagEnd_some_sublist {l r : List Char} (h : findTagEnd l = some r) :
    List.Sublist r l := by
  induction l with
  | nil => simp [findTagEnd] at h
  | cons c cs ih =>
    simp only [findTagEnd] at h
    split at h
    · cases h; exact (List.sublist_cons_self _ _)
    · exact (ih h).trans (List.sublist_cons_self _ _)

theorem findTagEnd_none_not_mem {l : List Char} (h : findTagEnd l = none) :
    '>' ∉ l := by
  induction l with
  | nil => simp
  | cons c cs ih =>
    simp only [findTagEnd] at h
    split at h
    · cases h
    · rename_i hc
      simp only [List.mem_cons, not_or]
      exact ⟨fun hcc => hc hcc.symm, ih h⟩

theorem findTagEnd_mem_some {l : List Char} (h : '>' ∈ l) :
    ∃ r, findTagEnd l = some r := by
  induction l with
  | nil => simp at h
  | cons c cs ih =>
    by_cases hc : c = '>'
    · exact ⟨cs, by simp [findTagEnd, hc]⟩
    · rcases List.mem_cons.1 h with h1 | h2
      · exact absurd h1.symm hc
      · obtain ⟨r, hr⟩ := ih h2
        refine ⟨r, ?_⟩
        simpa [findTagEnd, hc] using hr

/-- `text.replace(/<[^>]*>/g, '')` — remove HTML tags.  The regex is
deterministic: a match starts at each unconsumed `'<'` and runs through the
first subsequent `'>'`; a `'<'` with no later `'>'` never matches. -/
def stripTags : List Char → List Char
  | [] => []
  | c :: cs =>
    if c = '<' then
      match hf : findTagEnd cs with
      | some r => stripTags r
      | none => c :: stripTags cs
    else c :: stripTags cs
termination_by l => l.length
decreasing_by
  · exact Nat.lt_trans (findTagEnd_some_length hf) (by simp)
  · simp
  · simp

/-- The characters of `<script`. -/
def openScript : List Char := ['<', 's', 'c', 'r', 'i', 'p', 't']

/-- The characters of `</script>`. -/
def closeScript : List Char := ['<', '/', 's', 'c', 'r', 'i', 'p', 't', '>']

/-- The regex word boundary `\b` sitting after `<script`: it holds iff the
next character is not a word character (or the input ends). -/
def boundaryOk : List Char → Bool
  | [] => true
  | d :: _ => !(isWordChar d)

/-- Body scan of `/<script\b[^<]*(?:(?!<\/script>)<[^<]*)*<\/script>/i` after
the `<script\b` head: the alternation is deterministic (each `<` either
starts the literal `</script>` — which both the negative lookahead and the
tail demand exclusively — or is consumed by the loop), so the match runs to
the first case-insensitive `</script>` and fails if there is none. -/
def scanBody : List Char → Option (List Char)
  | [] => none
  | c :: cs => if startsCI closeScript (c :: cs) then some ((c :: cs).drop 9) else scanBody cs

theorem scanBody_some_length {l r : List Char} (h : scanBody l = some r) :
    r.length < l.length := by
  induction l with
  | nil => simp [scanBody] at h
  | cons c cs ih =>
    simp only [scanBody] at h
    split at h
    · cases h
      simp only [List.length_drop, List.length_cons]
      omega
    · exact Nat.lt_trans (ih h) (by simp)

/-- One attempted match of the script-block regex at the head of `l`,
returning the remainder after the match. -/
def matchScriptAt (l : List Char) : Option (List Char) :=
  if startsCI openScript l && boundaryOk (l.drop 7) then scanBody (l.drop 7) else none

theorem matchScriptAt_some_length {l r : List Char} (h : matchScriptAt l = some r) :
    r.length < l.length := by
  unfold matchScriptAt at h
  split at h
  · have h1 := scanBody_some_length h
    have h2 : (l.drop 7).length ≤ l.length := by simp
    omega
  · cases h

/-- `text.replace(/<script\b[^<]*(?:(?!<\/script>)<[^<]*)*<\/script>/gi, '')`
— remove well-formed script blocks. -/
def stripScriptBlocks : List Char → List Char
  | [] => []
  | c :: cs =>
    match hm : matchScriptAt (c :: cs) with
    | some r => stripScriptBlocks r
    | none => c :: stripScriptBlocks cs
termination_by l => l.length
decreasing_by
  · exact matchScriptAt_some_length hm
  · simp

/-- The characters of `javascript:`. -/
def jsProto : List Char := ['j', 'a', 'v', 'a', 's', 'c', 'r', 'i', 'p', 't', ':']

/-- `text.replace(/javascript:/gi, '')` — remove the JavaScript protocol.
Like the JavaScript engine, the scan resumes after each removed match and
never rescans the already-produced output. -/
def stripJS : List Char → List Char
  | [] => []
  | c :: cs =>
    if startsCI jsProto (c :: cs) then stripJS ((c :: cs).drop 11)
    else c :: stripJS cs
termination_by l => l.length
decreasing_by
  · simp only [List.length_drop, List.length_cons]
    omega
  · simp

def isQuote (c : Char) : Bool := c = '"' || c = Char.ofNat 39

/-- One attempted match of `/on\w+\s*=\s*["'][^"']*["']/i` at the head of
`l`.  Every quantifier in the regex is determined (each greedy run stops at
a character the follow-up requires), so a single forward pass decides it. -/
def matchEvent : List Char → Option (List Char)
  | c1 :: c2 :: rest =>
    if ciMatch 'o' c1 && ciMatch 'n' c2 then
      if (rest.takeWhile isWordChar).isEmpty then none
      else
        match (rest.dropWhile isWordChar).dropWhile isJsWs with
        | e :: r3 =>
          if e = '=' then
            match r3.dropWhile isJsWs with
            | q :: r5 =>
              if isQuote q then
                match r5.dropWhile (fun c => !(isQuote c)) with
                | q2 :: r7 => if isQuote q2 then some r7 else none
                | [] => none
              else none
            | [] => none
          else none
        | [] => none
    else none
  | _ => none

theorem dropWhile_length_le (p : Char → Bool) (l : List Char) :
    (l.dropWhile p).length ≤ l.length :=
  (List.dropWhile_sublist p).length_le

theorem matchEvent_some_length {l r : List Char} (h : matchEvent l = some r) :
    r.length < l.length := by
  match l with
  | [] => simp [matchEvent] at h
  | [c] => simp [matchEvent] at h
  | c1 :: c2 :: rest =>
    simp only [matchEvent] at h
    split at h
    case isFalse => cases h
    case isTrue =>
      split at h
      case isTrue => cases h
      case isFalse =>
        split at h
        case h_2 => cases h
        case h_1 e r3 h3 =>
          split at h
          case isFalse => cases h
          case isTrue =>
            split at h
            case h_2 => cases h
            case h_1 q r5 h5 =>
              split at h
              case isFalse => cases h
              case isTrue =>
                split at h
                case h_2 => cases h
                case h_1 q2 r7 h7 =>
                  split at h
                  case isFalse => cases h
                  case isTrue =>
                    cases h
                    have e3 : (e :: r3).length ≤ ((rest.dropWhile isWordChar)).length := by
                      rw [← h3]; exact dropWhile_length_le _ _
                    have e4 : ((rest.dropWhile isWordChar)).length ≤ rest.length :=
                      dropWhile_length_le _ _
                    have e5 : (q :: r5).length ≤ r3.length := by
                      rw [← h5]; exact dropWhile_length_le _ _
                    have e7 : (q2 :: r).length ≤ r5.length := by
                      rw [← h7]; exact dropWhile_length_le _ _
                    simp only [List.length_cons] at *
                    omega

/-- `text.replace(/on\w+\s*=\s*["'][^"']*["']/gi, '')` — remove inline
event-handler attribute patterns. -/
def stripEvents : List Char → List Char
  | [] => []
  | c :: cs =>
    match he : matchEvent (c :: cs) with
    | some r => stripEvents r
    | none => c :: stripEvents cs
termination_by l => l.length
decreasing_by
  · exact matchEvent_some_length he
  · simp

/-- `String.prototype.trim`: drop JavaScript whitespace from both ends. -/
def jsTrim (l : List Char) : List Char :=
  ((l.dropWhile isJsWs).reverse.dropWhile isJsWs).reverse

/-- `InputSanitizer.sanitizeText` (src/security-fixes.js, lines 152-162; the
same function appears verbatim in the client app): the four global regex
replacements in order, then `trim()`, then `substring(0, 5000)`. -/
def sanitizeTextList (l : List Char) : List Char :=
  (jsTrim (stripEvents (stripJS (stripTags (stripScriptBlocks l))))).take 5000

def sanitizeText (s : String) : String := ⟨sanitizeTextList s.data⟩

def stripScriptBlocksS (s : String) : String := ⟨stripScriptBlocks s.data⟩

def stripTagsS (s : String) : String := ⟨stripTags s.data⟩

def stripJSs (s : String) : String := ⟨stripJS s.data⟩

def stripEventsS (s : String) : String := ⟨stripEvents s.data⟩

def jsTrimS (s : String) : String := ⟨jsTrim s.data⟩

/-- Substring containment, as in the spec's "contains no `<script`". -/
def containsSub (s pat : String) : Prop := pat.data <:+: s.data

instance (s pat : String) : Decidable (containsSub s pat) := by
  unfold containsSub
  infer_instance

/-!
### Structure of sanitizer output

After the tag-removal pass, no `'<'` is ever followed (at any distance) by
a `'>'`; the later passes only delete characters, so this survives to the
final output.  `NoTag l` states that property as: `['<', '>']` is not a
sublist of `l`.
-/

def NoTag (l : List Char) : Prop := ¬ List.Sublist ['<', '>'] l

theorem noTag_of_sublist {l₁ l₂ : List Char} (hs : List.Sublist l₁ l₂) (h : NoTag l₂) :
    NoTag l₁ := fun hc => h (hc.trans hs)

theorem findTagEnd_some_mem {l r : List Char} (h : findTagEnd l = some r) : '>' ∈ l := by
  induction l with
  | nil => simp [findTagEnd] at h
  | cons c cs ih =>
    simp only [findTagEnd] at h
    split at h
    · rename_i hc; simp [hc]
    · exact List.mem_cons_of_mem _ (ih h)

theorem stripTags_sublist (l : List Char) : List.Sublist (stripTags l) l := by
  induction l using stripTags.induct with
  | case1 => simp [stripTags]
  | case2 cs r hf ih =>
    rw [stripTags, hf]
    exact (ih.trans (findTagEnd_some_sublist hf)).trans (List.sublist_cons_self _ _)
  | case3 cs hf ih =>
    rw [stripTags, hf]
    exact ih.cons₂ _
  | case4 c cs hc ih =>
    rw [stripTags, if_neg hc]
    exact ih.cons₂ _

theorem stripTags_cons_some {c : Char} {cs r : List Char} (hc : c = '<')
    (hf : findTagEnd cs = some r) : stripTags (c :: cs) = stripTags r := by
  subst hc
  rw [stripTags, hf]
  rfl

theorem stripTags_cons_none {c : Char} {cs : List Char} (hc : c = '<')
    (hf : findTagEnd cs = none) : stripTags (c :: cs) = c :: stripTags cs := by
  subst hc
  rw [stripTags, hf]
  rfl

theorem stripTags_cons_other {c : Char} {cs : List Char} (hc : ¬ c = '<') :
    stripTags (c :: cs) = c :: stripTags cs := by
  rw [stripTags, if_neg hc]

theorem stripTags_noTag (l : List Char) : NoTag (stripTags l) := by
  induction l using stripTags.induct with
  | case1 => intro hc; simp [stripTags] at hc
  | case2 cs r hf ih => rw [stripTags_cons_some rfl hf]; exact ih
  | case3 cs hf ih =>
    rw [stripTags_cons_none rfl hf]
    intro hc
    have hgt : '>' ∈ stripTags cs := by
      cases hc with
      | cons a h => exact h.subset (by simp)
      | cons₂ a h => exact List.singleton_sublist.1 h
    exact findTagEnd_none_not_mem hf ((stripTags_sublist cs).subset hgt)
  | case4 c cs hc ih =>
    rw [stripTags_cons_other hc]
    intro hs
    cases hs with
    | cons a h => exact ih h
    | cons₂ a h => exact hc rfl

theorem stripTags_eq_of_noTag : ∀ {l : List Char}, NoTag l → stripTags l = l := by
  intro l
  induction l using stripTags.induct with
  | case1 => intro h; simp [stripTags]
  | case2 cs r hf ih =>
    intro h
    exact absurd ((List.singleton_sublist.2 (findTagEnd_some_mem hf)).cons₂ '<') h
  | case3 cs hf ih =>
    intro h
    rw [stripTags_cons_none rfl hf,
      ih (noTag_of_sublist (List.sublist_cons_self _ _) h)]
  | case4 c cs hc ih =>
    intro h
    rw [stripTags_cons_other hc,
      ih (noTag_of_sublist (List.sublist_cons_self _ _) h)]

theorem startsCI_symbol_mem {pat m : List Char} {p : Char} (hp : isLowerAlpha p = false)
    (hmem : p ∈ pat) (h : startsCI pat m = true) : p ∈ m := by
  induction pat generalizing m with
  | nil => simp at hmem
  | cons a as ih =>
    cases m with
    | nil => simp [startsCI] at h
    | cons c cs =>
      simp only [startsCI, Bool.and_eq_true] at h
      rcases List.mem_cons.1 hmem with h1 | h2
      · subst h1
        have := (ciMatch_symbol hp).1 h.1
        simp [this]
      · exact List.mem_cons_of_mem _ (ih h2 h.2)

theorem startsCI_open_head {l : List Char} (h : startsCI openScript l = true) :
    ∃ cs, l = '<' :: cs := by
  cases l with
  | nil => simp [openScript, startsCI] at h
  | cons c cs =>
    simp only [openScript, startsCI, Bool.and_eq_true] at h
    have : c = '<' := (ciMatch_symbol (by decide)).1 h.1
    exact ⟨cs, by rw [this]⟩

theorem scanBody_some_mem {l r : List Char} (h : scanBody l = some r) : '>' ∈ l := by
  induction l with
  | nil => simp [scanBody] at h
  | cons c cs ih =>
    simp only [scanBody] at h
    split at h
    · rename_i hs
      exact startsCI_symbol_mem (by decide) (by decide) hs
    · exact List.mem_cons_of_mem _ (ih h)

theorem matchScriptAt_some_tag {l r : List Char} (h : matchScriptAt l = some r) :
    List.Sublist ['<', '>'] l := by
  unfold matchScriptAt at h
  split at h
  · rename_i hcond
    simp only [Bool.and_eq_true] at hcond
    obtain ⟨cs, rfl⟩ := startsCI_open_head hcond.1
    have hgt : '>' ∈ ('<' :: cs).drop 7 := scanBody_some_mem h
    have hgt2 : '>' ∈ cs := by
      have := List.mem_of_mem_drop hgt
      rcases List.mem_cons.1 this with h1 | h2
      · cases h1
      · exact h2
    exact (List.singleton_sublist.2 hgt2).cons₂ '<'
  · cases h

theorem stripScriptBlocks_cons_none {c : Char} {cs : List Char}
    (hm : matchScriptAt (c :: cs) = none) :
    stripScriptBlocks (c :: cs) = c :: stripScriptBlocks cs := by
  rw [stripScriptBlocks, hm]

theorem stripScriptBlocks_eq_of_noTag : ∀ {l : List Char}, NoTag l →
    stripScriptBlocks l = l := by
  intro l
  induction l using stripScriptBlocks.induct with
  | case1 => intro h; simp [stripScriptBlocks]
  | case2 c cs r hm ih => intro h; exact absurd (matchScriptAt_some_tag hm) h
  | case3 c cs hm ih =>
    intro h
    rw [stripScriptBlocks_cons_none hm,
      ih (noTag_of_sublist (List.sublist_cons_self _ _) h)]

theorem stripJS_sublist (l : List Char) : List.Sublist (stripJS l) l := by
  induction l using stripJS.induct with
  | case1 => simp [stripJS]
  | case2 c cs hs ih =>
    rw [stripJS, if_pos hs]
    exact ih.trans (List.drop_sublist _ _)
  | case3 c cs hs ih =>
    rw [stripJS, if_neg hs]
    exact ih.cons₂ _

theorem matchEvent_some_suffix {l r : List Char} (h : matchEvent l = some r) :
    r <:+ l := by
  match l with
  | [] => simp [matchEvent] at h
  | [c] => simp [matchEvent] at h
  | c1 :: c2 :: rest =>
    simp only [matchEvent] at h
    split at h
    case isFalse => cases h
    case isTrue =>
      split at h
      case isTrue => cases h
      case isFalse =>
        split at h
        case h_2 => cases h
        case h_1 e r3 h3 =>
          split at h
          case isFalse => cases h
          case isTrue =>
            split at h
            case h_2 => cases h
            case h_1 q r5 h5 =>
              split at h
              case isFalse => cases h
              case isTrue =>
                split at h
                case h_2 => cases h
                case h_1 q2 r7 h7 =>
                  split at h
                  case isFalse => cases h
                  case isTrue =>
                    cases h
                    have s3 : (e :: r3) <:+ rest :=
                      (h3 ▸ List.dropWhile_suffix _).trans (List.dropWhile_suffix _)
                    have s5 : (q :: r5) <:+ r3 := h5 ▸ List.dropWhile_suffix _
                    have s7 : (q2 :: r) <:+ r5 := h7 ▸ List.dropWhile_suffix _
                    have : r <:+ rest :=
                      (((List.suffix_cons q2 r).trans s7).trans
                        ((List.suffix_cons q r5).trans s5)).trans
                        ((List.suffix_cons e r3).trans s3)
                    exact this.trans ((List.suffix_cons c2 rest).trans
                      (List.suffix_cons c1 (c2 :: rest)))

theorem stripEvents_sublist (l : List Char) : List.Sublist (stripEvents l) l := by
  induction l using stripEvents.induct with
  | case1 => simp [stripEvents]
  | case2 c cs r he ih =>
    rw [stripEvents, he]
    exact ih.trans (matchEvent_some_suffix he).sublist
  | case3 c cs he ih =>
    rw [stripEvents, he]
    exact ih.cons₂ _

theorem jsTrim_sublist (l : List Char) : List.Sublist (jsTrim l) l := by
  unfold jsTrim
  have h1 : List.Sublist (List.dropWhile isJsWs l) l := List.dropWhile_sublist _
  have h2 := (List.dropWhile_sublist (l := (List.dropWhile isJsWs l).reverse) isJsWs).reverse
  rw [List.reverse_reverse] at h2
  exact h2.trans h1

theorem sanitizeTextList_sublist_stripTags (l : List Char) :
    List.Sublist (sanitizeTextList l) (stripTags (stripScriptBlocks l)) := by
  unfold sanitizeTextList
  exact (List.take_sublist _ _).trans ((jsTrim_sublist _).trans
    ((stripEvents_sublist _).trans (stripJS_sublist _)))

theorem sanitizeTextList_noTag (l : List Char) : NoTag (sanitizeTextList l) :=
  noTag_of_sublist (sanitizeTextList_sublist_stripTags l) (stripTags_noTag _)

theorem sanitizeTextList_length_le (l : List Char) : (sanitizeTextList l).length ≤ 5000 := by
  unfold sanitizeTextList
  simp

/-- The characters of `<script>` (a complete opening script tag). -/
def openTag : List Char := ['<', 's', 'c', 'r', 'i', 'p', 't', '>']

/-- The input contains `<script>...</script>`: an opening script tag
followed (after arbitrary text) by a closing script tag. -/
def hasScriptElement (s : String) : Prop :=
  ∃ a b c, s.data = a ++ openTag ++ b ++ closeScript ++ c

theorem sanitizeText_data (s : String) : (sanitizeText s).data = sanitizeTextList s.data := rfl

/-- Claim C2, counterexample: the input `<script>x</script><script` contains
an opening script tag followed by a closing one, yet its sanitized output is
the string `<script` itself — the replacement passes leave a trailing
unclosed `<script` fragment, so the claimed absence of any `<script`
substring in the output is false. -/
theorem script_fragment_survives_sanitizeText :
    hasScriptElement "<script>x</script><script" ∧
    containsSub (sanitizeText "<script>x</script><script") "<script" := by
  constructor
  · exact ⟨[], ['x'], ['<', 's', 'c', 'r', 'i', 'p', 't'], by decide⟩
  · have h : sanitizeText "<script>x</script><script" = "<script" := by
      simp [sanitizeText, sanitizeTextList, stripScriptBlocks, matchScriptAt,
        scanBody, startsCI, ciMatch, isLowerAlpha, stripTags, findTagEnd,
        stripJS, stripEvents, matchEvent, isWordChar, isJsWs, jsTrim,
        isQuote, openScript, closeScript, jsProto, boundaryOk, String.data]
    rw [h]
    decide

/-- Claim C2, amended: for every input containing `<script>...</script>`,
the sanitized output contains no occurrence of the complete substring
`<script>`; indeed no `'<'` in any sanitizer output is ever followed by a
`'>'`, so only an unclosed trailing `<script` fragment can survive. -/
theorem sanitizeText_no_complete_script_tag (s : String) (h : hasScriptElement s) :
    ¬ containsSub (sanitizeText s) "<script>" := by
  intro hc
  apply sanitizeTextList_noTag s.data
  have h1 : List.Sublist ['<', '>'] "<script>".data := by decide
  have h2 : List.Sublist "<script>".data (sanitizeText s).data := hc.sublist
  rw [sanitizeText_data] at h2
  exact h1.trans h2

/-- Witness for `sanitizeText_no_complete_script_tag` at the concrete input
`<script>a</script>`. -/
theorem sanitizeText_no_complete_script_tag_witness :
    hasScriptElement "<script>a</script>" ∧
    ¬ containsSub (sanitizeText "<script>a</script>") "<script>" := by
  have hse : hasScriptElement "<script>a</script>" :=
    ⟨[], ['a'], [], by decide⟩
  exact ⟨hse, sanitizeText_no_complete_script_tag _ hse⟩

/-- Claim C3, counterexample: sanitizing `javajavascript:script:` removes the
inner `javascript:` and splices the surrounding characters into a fresh
`javascript:`, which a second sanitization pass removes; hence
`sanitizeText` is not idempotent. -/
theorem sanitizeText_not_idempotent :
    sanitizeText (sanitizeText "javajavascript:script:") ≠
      sanitizeText "javajavascript:script:" := by
  have h1 : sanitizeText "javajavascript:script:" = "javascript:" := by
    simp [sanitizeText, sanitizeTextList, stripScriptBlocks, matchScriptAt,
      scanBody, startsCI, ciMatch, isLowerAlpha, stripTags, findTagEnd,
      stripJS, stripEvents, matchEvent, isWordChar, isJsWs, jsTrim,
      isQuote, openScript, closeScript, jsProto, boundaryOk, String.data]
  have h2 : sanitizeText "javascript:" = "" := by
    simp [sanitizeText, sanitizeTextList, stripScriptBlocks, matchScriptAt,
      scanBody, startsCI, ciMatch, isLowerAlpha, stripTags, findTagEnd,
      stripJS, stripEvents, matchEvent, isWordChar, isJsWs, jsTrim,
      isQuote, openScript, closeScript, jsProto, boundaryOk, String.data]
  rw [h1, h2]
  decide

/-- Claim C3, amended: `sanitizeText` is idempotent on every input `x` whose
sanitized output is left unchanged by the `javascript:`-removal pass, the
event-handler-removal pass and trimming (the script-block and tag-removal
passes never act on any sanitizer output, and the output length is already
within the 5000-character bound, so these three conditions are exactly what
a second pass can change). -/
theorem sanitizeText_idem_of_fixed (x : String)
    (h1 : stripJSs (sanitizeText x) = sanitizeText x)
    (h2 : stripEventsS (sanitizeText x) = sanitizeText x)
    (h3 : jsTrimS (sanitizeText x) = sanitizeText x) :
    sanitizeText (sanitizeText x) = sanitizeText x := by
  have hd1 : stripJS (sanitizeText x).data = (sanitizeText x).data :=
    congrArg String.data h1
  have hd2 : stripEvents (sanitizeText x).data = (sanitizeText x).data :=
    congrArg String.data h2
  have hd3 : jsTrim (sanitizeText x).data = (sanitizeText x).data :=
    congrArg String.data h3
  have hnt : NoTag (sanitizeText x).data := by
    rw [sanitizeText_data]
    exact sanitizeTextList_noTag x.data
  have hlen : (sanitizeText x).data.length ≤ 5000 := by
    rw [sanitizeText_data]
    exact sanitizeTextList_length_le x.data
  show (⟨sanitizeTextList (sanitizeText x).data⟩ : String) = sanitizeText x
  rw [sanitizeTextList, stripScriptBlocks_eq_of_noTag hnt, stripTags_eq_of_noTag hnt,
    hd1, hd2, hd3, List.take_of_length_le hlen]

/-- Witness for `sanitizeText_idem_of_fixed` at the concrete input
`hello`. -/
theorem sanitizeText_idem_of_fixed_witness :
    sanitizeText (sanitizeText "hello") = sanitizeText "hello" := by
  have he : sanitizeText "hello" = "hello" := by
    simp [sanitizeText, sanitizeTextList, stripScriptBlocks, matchScriptAt,
      scanBody, startsCI, ciMatch, isLowerAlpha, stripTags, findTagEnd,
      stripJS, stripEvents, matchEvent, isWordChar, isJsWs, jsTrim,
      isQuote, openScript, closeScript, jsProto, boundaryOk, String.data]
  refine sanitizeText_idem_of_fixed "hello" ?_ ?_ ?_
  · rw [he]
    simp [stripJSs, stripJS, startsCI, ciMatch, isLowerAlpha, jsProto, String.data]
  · rw [he]
    simp [stripEventsS, stripEvents, matchEvent, ciMatch, isLowerAlpha,
      isWordChar, isJsWs, isQuote, String.data]
  · rw [he]
    simp [jsTrimS, jsTrim, isJsWs, String.data]

/-!
### CSRF token service

`SecurityUtils.generateCSRFToken` / `validateCSRFToken` /
`cleanupExpiredTokens` (src/security-improvements/api-key-encryption.js):
the session-bound, one-time, TTL-limited token table of spec section 4.3.
The `Map` keyed by token strings is embedded extensionally as a function
`String → Option TokenData`; `Date.now()` and the random token string are
explicit parameters.
-/

structure TokenData where
  sessionId : String
  expiry : Nat
  used : Bool
deriving DecidableEq, Repr

def CsrfStore : Type := String → Option TokenData

def setToken (m : CsrfStore) (t : String) (d : TokenData) : CsrfStore :=
  fun t2 => if t2 = t then some d else m t2

def delToken (m : CsrfStore) (t : String) : CsrfStore :=
  fun t2 => if t2 = t then none else m t2

/-- `this.tokenExpiry = 60 * 60 * 1000`. -/
def tokenExpiryMs : Nat := 60 * 60 * 1000

/-- `cleanupExpiredTokens`: delete every entry that is expired or used. -/
def cleanupExpiredTokens (m : CsrfStore) (now : Nat) : CsrfStore :=
  fun t => match m t with
    | some d => if now > d.expiry || d.used then none else some d
    | none => none

/-- `generateCSRFToken(sessionId)`: store the fresh random token `tok` with
expiry `now + tokenExpiry` and `used = false`, then run the cleanup sweep. -/
def generateCSRFToken (m : CsrfStore) (tok sessionId : String) (now : Nat) : CsrfStore :=
  cleanupExpiredTokens (setToken m tok ⟨sessionId, now + tokenExpiryMs, false⟩) now

/-- The four failure reasons thrown by `validateCSRFToken`, in source
order. -/
inductive CsrfFailure where
  | unknownToken
  | alreadyUsed
  | expired
  | sessionMismatch
deriving DecidableEq, Repr

/-- `validateCSRFToken(token, sessionId)`: checks run in source order
(missing entry, `used`, expiry, session binding); a thrown error is the
`some`-failure component, and the map mutations (`delete` on used/expired,
`used = true` on success) are the returned store. -/
def validateCSRFToken (m : CsrfStore) (tok sessionId : String) (now : Nat) :
    Option CsrfFailure × CsrfStore :=
  match m tok with
  | none => (some .unknownToken, m)
  | some d =>
    if d.used then (some .alreadyUsed, delToken m tok)
    else if now > d.expiry then (some .expired, delToken m tok)
    else if d.sessionId ≠ sessionId then (some .sessionMismatch, m)
    else (none, setToken m tok ⟨d.sessionId, d.expiry, true⟩)

/-- Claim C1: a token `t` issued for session `S` and validated within its
TTL succeeds once and is marked used; the next `validate(t, S)` fails with
`AlreadyUsed`; validating against a different session `B` fails with
`SessionMismatch`; and in any store state a successful validation implies
the presented session equals the stored binding, so `t` never validates
against a session other than the one it was issued for. -/
theorem csrf_one_time_session_bound (m : CsrfStore) (t S B : String)
    (now now1 now2 : Nat) (hBS : B ≠ S) (h1 : now1 ≤ now + tokenExpiryMs) :
    ((validateCSRFToken (generateCSRFToken m t S now) t S now1).1 = none ∧
      (validateCSRFToken (generateCSRFToken m t S now) t S now1).2 t =
        some ⟨S, now + tokenExpiryMs, true⟩) ∧
    (validateCSRFToken
      (validateCSRFToken (generateCSRFToken m t S now) t S now1).2 t S now2).1 =
        some CsrfFailure.alreadyUsed ∧
    (validateCSRFToken (generateCSRFToken m t S now) t B now1).1 =
      some CsrfFailure.sessionMismatch ∧
    (∀ (m2 : CsrfStore) (sid : String) (now3 : Nat),
      (validateCSRFToken m2 t sid now3).1 = none →
      ∃ d, m2 t = some d ∧ d.sessionId = sid) := by
  have hm1 : generateCSRFToken m t S now t = some ⟨S, now + tokenExpiryMs, false⟩ := by
    unfold generateCSRFToken cleanupExpiredTokens setToken
    simp
  have hnotexp : ¬ now1 > now + tokenExpiryMs := by omega
  have hval : validateCSRFToken (generateCSRFToken m t S now) t S now1 =
      (none, setToken (generateCSRFToken m t S now) t ⟨S, now + tokenExpiryMs, true⟩) := by
    unfold validateCSRFToken
    rw [hm1]
    simp [hnotexp]
  refine ⟨⟨by rw [hval], by rw [hval]; simp [setToken]⟩, ?_, ?_, ?_⟩
  · rw [hval]
    unfold validateCSRFToken
    simp [setToken]
  · unfold validateCSRFToken
    rw [hm1]
    simp [hnotexp, Ne.symm hBS]
  · intro m2 sid now3 hok
    unfold validateCSRFToken at hok
    match hm2 : m2 t with
    | none => rw [hm2] at hok; cases hok
    | some d =>
      rw [hm2] at hok
      refine ⟨d, rfl, ?_⟩
      by_cases hu : d.used
      · simp [hu] at hok
      · by_cases he : now3 > d.expiry
        · simp [hu, he] at hok
        · by_cases hs : d.sessionId = sid
          · exact hs
          · simp [hu, he, hs] at hok

/-- Witness for `csrf_one_time_session_bound` on an initially empty store,
token `tok`, sessions `alice` and `bob`, issue time 0 and validation
times 5 and 6. -/
theorem csrf_one_time_session_bound_witness :
    ((validateCSRFToken (generateCSRFToken (fun _ => none) "tok" "alice" 0)
        "tok" "alice" 5).1 = none ∧
      (validateCSRFToken (generateCSRFToken (fun _ => none) "tok" "alice" 0)
        "tok" "alice" 5).2 "tok" = some ⟨"alice", 0 + tokenExpiryMs, true⟩) ∧
    (validateCSRFToken
      (validateCSRFToken (generateCSRFToken (fun _ => none) "tok" "alice" 0)
        "tok" "alice" 5).2 "tok" "alice" 6).1 = some CsrfFailure.alreadyUsed ∧
    (validateCSRFToken (generateCSRFToken (fun _ => none) "tok" "alice" 0)
      "tok" "bob" 5).1 = some CsrfFailure.sessionMismatch := by
  have h := csrf_one_time_session_bound (fun _ => none) "tok" "alice" "bob" 0 5 6
    (by decide) (by norm_num [tokenExpiryMs])
  exact ⟨h.1, h.2.1, h.2.2.1⟩

/-!
### Request-authorization gate

`app.post('/api/synthesize')` of src/secure-server.js, up to the point
where the validated request is forwarded to the Google Cloud client: the
CSRF check against the process-wide token `Set`, the deletion of the used
token, and the four input validators, in source order.  The express
middleware (helmet, rate limiting, JSON parsing) sits outside this handler
and holds no gate state of its own.
-/

/-- JavaScript truthiness for an optional string: `undefined`/absent and
the empty string are falsy. -/
def jsTruthy : Option String → Option String
  | some s => if s = "" then none else some s
  | none => none

/-- `validateInput.text` (src/secure-server.js lines 78-97): reject missing
or empty text, sanitize with the script-block and tag regexes plus `trim()`
(no `javascript:`/event-handler passes and no truncation here), reject if
the sanitized text is empty or longer than 5000. -/
def validateText (t : Option String) : Except String String :=
  match t with
  | none => .error "テキストが必要です"
  | some s =>
    if s = "" then .error "テキストが必要です"
    else
      let sanitized := jsTrim (stripTags (stripScriptBlocks s.data))
      if sanitized.length = 0 then .error "有効なテキストを入力してください"
      else if sanitized.length > 5000 then .error "テキストが長すぎます（5000文字以内）"
      else .ok ⟨sanitized⟩

def allowedVoices : List String :=
  ["ja-JP-Neural2-B", "ja-JP-Neural2-C", "ja-JP-Neural2-D",
   "en-US-Neural2-F", "en-US-Neural2-D"]

def validateVoice (v : String) : Except String Unit :=
  if v ∈ allowedVoices then .ok () else .error "無効な音声タイプです"

/-- The `speed` field as seen after `parseFloat`: absent (destructuring
default `1.0` applies), unparseable (`NaN`), or a numeric value; the exact
bounds `0.25` and `4.0` are binary floats, embedded as rationals. -/
inductive SpeedField where
  | absent
  | nan
  | val (q : ℚ)
deriving DecidableEq

def effSpeed : SpeedField → Option ℚ
  | .absent => some 1
  | .nan => none
  | .val q => some q

def validateSpeed (f : SpeedField) : Except String ℚ :=
  match effSpeed f with
  | none => .error "速度は0.25から4.0の範囲で指定してください"
  | some q =>
    if q < 1 / 4 ∨ q > 4 then .error "速度は0.25から4.0の範囲で指定してください"
    else .ok q

/-- `validateInput.apiKey`: the key is optional (falsy passes); otherwise
prefix `AIza`, length 35-45, charset `[A-Za-z0-9_-]`. -/
def validateApiKey (k : Option String) : Except String Unit :=
  match jsTruthy k with
  | none => .ok ()
  | some s =>
    if ¬ s.startsWith "AIza" then .error "Google Cloud APIキーの形式が正しくありません"
    else if s.length < 35 ∨ s.length > 45 then .error "APIキーの長さが正しくありません"
    else if ¬ (s.data.all fun c => isWordChar c || c = '-') then
      .error "APIキーに無効な文字が含まれています"
    else .ok ()

structure SynthRequest where
  headerToken : Option String
  bodyToken : Option String
  text : Option String
  voice : Option String
  speed : SpeedField
  apiKey : Option String

/-- `req.headers['x-csrf-token'] || csrfToken` under JS truthiness. -/
def recvToken (r : SynthRequest) : Option String :=
  match jsTruthy r.headerToken with
  | some h => some h
  | none => jsTruthy r.bodyToken

/-- Destructuring default `voice = 'ja-JP-Neural2-B'`. -/
def effVoice (r : SynthRequest) : String := r.voice.getD "ja-JP-Neural2-B"

/-- What the handler sends back before any provider call: an error JSON
with its HTTP status and message, or the forwarding of the validated
request (text, `languageCode = voice.substring(0, 5)`, voice name,
speaking rate). -/
inductive GateResponse where
  | reject (status : Nat) (msg : String)
  | forward (text languageCode voiceName : String) (speakingRate : ℚ)
deriving DecidableEq

/-- The single generic message of every CSRF rejection. -/
def csrfRejectMsg : String := "CSRF検証に失敗しました"

/-- The `/api/synthesize` handler up to the provider call, acting on the
process-wide token set (`csrfTokens`, embedded as the list of its
elements): missing/unknown token → 403; otherwise the token is deleted
from the set and the validators run in source order, each failure → 400;
all passing → forward. -/
def synthesizeGate (tokens : List String) (r : SynthRequest) :
    GateResponse × List String :=
  match recvToken r with
  | none => (.reject 403 csrfRejectMsg, tokens)
  | some t =>
    if t ∈ tokens then
      let tokens2 := tokens.filter (fun x => x ≠ t)
      match validateText r.text with
      | .error e => (.reject 400 e, tokens2)
      | .ok sanitized =>
        match validateVoice (effVoice r) with
        | .error e => (.reject 400 e, tokens2)
        | .ok _ =>
          match validateSpeed r.speed with
          | .error e => (.reject 400 e, tokens2)
          | .ok q =>
            match validateApiKey r.apiKey with
            | .error e => (.reject 400 e, tokens2)
            | .ok _ =>
              (.forward sanitized ((effVoice r).take 5) (effVoice r) q, tokens2)
    else (.reject 403 csrfRejectMsg, tokens)

/-- Claim C5: whenever the gate rejects a request at the CSRF step — the
presented token is missing or not in the store, which is how an unknown,
already-consumed (deleted on use), or expired (deleted by the TTL timer)
token presents, and a session mismatch cannot even be expressed since the
store binds no session — the response is always the same
`403 CSRF検証に失敗しました` body and the store is untouched, so the caller
cannot distinguish the specific reason. -/
theorem csrf_rejection_uniform (tokens : List String) (r : SynthRequest)
    (h : ∀ t, recvToken r = some t → t ∉ tokens) :
    synthesizeGate tokens r = (.reject 403 csrfRejectMsg, tokens) := by
  unfold synthesizeGate
  match hr : recvToken r with
  | none => rfl
  | some t =>
    have ht := h t hr
    simp [ht]

/-- Witness for `csrf_rejection_uniform`: a request presenting the unknown
token `x` against an empty store. -/
theorem csrf_rejection_uniform_witness :
    synthesizeGate [] ⟨none, some "x", some "hi", none, .absent, none⟩ =
      (.reject 403 csrfRejectMsg, []) :=
  csrf_rejection_uniform [] ⟨none, some "x", some "hi", none, .absent, none⟩
    (by intro t ht; simp)

/-- Claim C4, counterexample: a request presenting the valid token `tok0`
with empty text is rejected with the field-specific 400 `InvalidArgument`
response, yet the token has already been deleted from the store; a retry
with the same token and corrected text is then rejected at the CSRF step.
The gate therefore does mutate state on a request that fails structural
validation. -/
theorem gate_consumes_token_on_invalid_argument :
    synthesizeGate ["tok0"] ⟨none, some "tok0", some "", none, .absent, none⟩ =
      (.reject 400 "テキストが必要です", []) ∧
    synthesizeGate [] ⟨none, some "tok0", some "hello", none, .absent, none⟩ =
      (.reject 403 csrfRejectMsg, []) := by
  constructor
  · rfl
  · rfl

/-- Claim C4, amended: once the CSRF check passes, the gate always consumes
the presented token — deleting it from the store before structural
validation runs — so a request rejected with `InvalidArgument` has spent
its token and the token is not valid for a retry; only a rejection at the
CSRF step itself leaves the store unchanged. -/
theorem gate_consumes_token_before_validation (tokens : List String)
    (r : SynthRequest) (t : String) (hr : recvToken r = some t)
    (ht : t ∈ tokens) :
    (synthesizeGate tokens r).2 = tokens.filter (fun x => x ≠ t) ∧
    t ∉ (synthesizeGate tokens r).2 := by
  have hstate : (synthesizeGate tokens r).2 = tokens.filter (fun x => x ≠ t) := by
    simp only [synthesizeGate, hr, ht, if_true]
    rcases validateText r.text with e | s1
    · rfl
    · rcases validateVoice (effVoice r) with e | u
      · rfl
      · rcases validateSpeed r.speed with e | q
        · rfl
        · rcases validateApiKey r.apiKey with e | u2
          · rfl
          · rfl
  refine ⟨hstate, ?_⟩
  rw [hstate]
  simp

/-- Witness for `gate_consumes_token_before_validation`: the valid token
`a` with an empty-text request. -/
theorem gate_consumes_token_before_validation_witness :
    (synthesizeGate ["a"] ⟨none, some "a", some "", none, .absent, none⟩).2 =
      (["a"].filter (fun x => x ≠ "a")) ∧
    "a" ∉ (synthesizeGate ["a"] ⟨none, some "a", some "", none, .absent, none⟩).2 :=
  gate_consumes_token_before_validation ["a"] _ "a" rfl (by simp)

/-!
### Credential vault

`SecureApiKeyManager` of src/security-fixes.js: AES-GCM is the platform
primitive the spec treats as a black box, embedded symbolically as a
perfectly authenticated cipher — a ciphertext remembers the key and IV it
was made with and decrypts only under both (any mismatch models the
`crypto.subtle.decrypt` rejection that the JavaScript `catch` turns into
`clearApiKey(); return null`).  `sessionStorage` holds the key material
(`tts-crypto-key`) and the blob (`tts-api-key-secure`); `this.encryptionKey`
is the in-memory handle.  `Date.now()` and fresh randomness are explicit
parameters.  The `setTimeout`-based 30-minute auto-clear is a scheduler
action outside the model; the lazy age check in `getApiKeySecurely`
enforces the same expiry window at read time.
-/

structure Cipher where
  key : Nat
  iv : Nat
  plain : String
deriving DecidableEq, Repr

def encryptGCM (k iv : Nat) (p : String) : Cipher := ⟨k, iv, p⟩

def decryptGCM (k iv : Nat) (c : Cipher) : Option String :=
  if c.key = k ∧ c.iv = iv then some c.plain else none

/-- The stored blob `{data, iv, timestamp}`. -/
structure SecureData where
  data : Cipher
  iv : Nat
  timestamp : Nat
deriving DecidableEq, Repr

structure VaultState where
  memKey : Option Nat
  storedKey : Option Nat
  blob : Option SecureData
deriving DecidableEq, Repr

/-- `getEncryptionKey`: reuse the in-memory key, else import the stored
one, else generate `fresh`, keep it in memory and export it to storage. -/
def getEncryptionKey (st : VaultState) (fresh : Nat) : Nat × VaultState :=
  match st.memKey with
  | some k => (k, st)
  | none =>
    match st.storedKey with
    | some kd => (kd, { st with memKey := some kd })
    | none => (fresh, { st with memKey := some fresh, storedKey := some fresh })

/-- `30 * 60 * 1000`. -/
def expiryWindowMs : Nat := 30 * 60 * 1000

/-- `clearApiKey`: remove both storage entries and null the in-memory
handle. -/
def clearApiKey (_st : VaultState) : VaultState := ⟨none, none, none⟩

/-- `saveApiKeySecurely(apiKey)`: reject a falsy key, else encrypt under
the session key with a fresh IV and store `{data, iv, timestamp := now}`. -/
def saveApiKeySecurely (st : VaultState) (apiKey : String) (fresh iv now : Nat) :
    Except String VaultState :=
  if apiKey = "" then .error "有効なAPIキーを入力してください"
  else
    let p := getEncryptionKey st fresh
    .ok { p.2 with blob := some ⟨encryptGCM p.1 iv apiKey, iv, now⟩ }

/-- `getApiKeySecurely()`: `null` if nothing stored; expired blobs are
cleared and read as `null`; a decryption failure is caught, the entry is
cleared and `null` is returned. -/
def getApiKeySecurely (st : VaultState) (fresh now : Nat) : Option String × VaultState :=
  match st.blob with
  | none => (none, st)
  | some sd =>
    if now - sd.timestamp > expiryWindowMs then (none, clearApiKey st)
    else
      let p := getEncryptionKey st fresh
      match decryptGCM p.1 sd.iv sd.data with
      | some plain => (some plain, p.2)
      | none => (none, clearApiKey p.2)

theorem getEncryptionKey_memKey (st : VaultState) (fresh : Nat) :
    (getEncryptionKey st fresh).2.memKey = some (getEncryptionKey st fresh).1 := by
  unfold getEncryptionKey
  rcases st with ⟨mk, sk, b⟩
  cases mk <;> cases sk <;> simp

/-- Claim C6: saving a secret `k` and loading it back with less than the
30-minute expiry window elapsed — and no clear or key regeneration in
between, i.e. on the exact state `save` produced — returns `k`. -/
theorem vault_round_trip (st : VaultState) (k : String)
    (fresh iv now fresh2 now1 : Nat) (hk : k ≠ "")
    (hexp : now1 - now ≤ expiryWindowMs) :
    ∀ st1, saveApiKeySecurely st k fresh iv now = Except.ok st1 →
      (getApiKeySecurely st1 fresh2 now1).1 = some k := by
  intro st1 hsave
  unfold saveApiKeySecurely at hsave
  rw [if_neg hk] at hsave
  cases hsave
  unfold getApiKeySecurely
  simp only
  rw [if_neg (by omega)]
  have hmem : ({ (getEncryptionKey st fresh).2 with
      blob := some ⟨encryptGCM (getEncryptionKey st fresh).1 iv k, iv, now⟩ }
        : VaultState).memKey = some (getEncryptionKey st fresh).1 :=
    getEncryptionKey_memKey st fresh
  rw [getEncryptionKey]
  rw [hmem]
  simp [decryptGCM, encryptGCM]

/-- Witness for `vault_round_trip`: an empty vault, secret `AIzaKey`,
fresh key 7, IV 9, saved at time 100 and loaded at time 200. -/
theorem vault_round_trip_witness :
    (getApiKeySecurely ⟨some 7, some 7, some ⟨⟨7, 9, "AIzaKey"⟩, 9, 100⟩⟩ 11 200).1 =
      some "AIzaKey" :=
  vault_round_trip ⟨none, none, none⟩ "AIzaKey" 7 9 100 11 200 (by decide)
    (by norm_num [expiryWindowMs])
    ⟨some 7, some 7, some ⟨⟨7, 9, "AIzaKey"⟩, 9, 100⟩⟩ rfl

/-- Claim C7: `load` never propagates an error.  With no stored blob it
returns `null` and leaves the state alone; an over-age blob is cleared and
read as `null`; and a blob whose ciphertext does not decrypt under the
session key (corruption, or key regeneration) is cleared and read as
`null` — the embedded function is total, mirroring the `try/catch` that
converts every decryption failure into `clearApiKey(); return null`. -/
theorem vault_load_never_fails (st : VaultState) (fresh now : Nat) :
    (st.blob = none → getApiKeySecurely st fresh now = (none, st)) ∧
    (∀ sd, st.blob = some sd → now - sd.timestamp > expiryWindowMs →
      getApiKeySecurely st fresh now = (none, clearApiKey st) ∧
      (clearApiKey st).blob = none) ∧
    (∀ sd, st.blob = some sd → ¬ (now - sd.timestamp > expiryWindowMs) →
      decryptGCM (getEncryptionKey st fresh).1 sd.iv sd.data = none →
      (getApiKeySecurely st fresh now).1 = none ∧
      (getApiKeySecurely st fresh now).2.blob = none) := by
  refine ⟨?_, ?_, ?_⟩
  · intro hb
    unfold getApiKeySecurely
    rw [hb]
  · intro sd hb hexp
    refine ⟨?_, rfl⟩
    unfold getApiKeySecurely
    rw [hb]
    simp only
    rw [if_pos hexp]
  · intro sd hb hexp hdec
    unfold getApiKeySecurely
    rw [hb]
    simp only
    rw [if_neg hexp, hdec]
    exact ⟨rfl, rfl⟩

/-- Witness for `vault_load_never_fails`: the empty vault, an expired blob
(saved at 0, read just past the window), and an unexpired blob encrypted
under key 2 while the session key is 1. -/
theorem vault_load_never_fails_witness :
    getApiKeySecurely ⟨none, none, none⟩ 0 0 = (none, ⟨none, none, none⟩) ∧
    getApiKeySecurely ⟨none, none, some ⟨⟨0, 0, "k"⟩, 0, 0⟩⟩ 0 (expiryWindowMs + 1) =
      (none, clearApiKey ⟨none, none, some ⟨⟨0, 0, "k"⟩, 0, 0⟩⟩) ∧
    (getApiKeySecurely ⟨some 1, none, some ⟨⟨2, 0, "k"⟩, 0, 0⟩⟩ 0 0).1 = none := by
  refine ⟨(vault_load_never_fails ⟨none, none, none⟩ 0 0).1 rfl, ?_, ?_⟩
  · exact ((vault_load_never_fails _ 0 (expiryWindowMs + 1)).2.1
      ⟨⟨0, 0, "k"⟩, 0, 0⟩ rfl (by decide)).1
  · exact ((vault_load_never_fails ⟨some 1, none, some ⟨⟨2, 0, "k"⟩, 0, 0⟩⟩ 0 0).2.2
      ⟨⟨2, 0, "k"⟩, 0, 0⟩ rfl (by simp [expiryWindowMs]) (by decide)).1

/-!
### Rate limiter

`RateLimiter` of src/security-fixes.js: `canMakeRequest` evicts timestamps
older than `windowMs`, refuses at capacity, otherwise records `now`;
`getTimeUntilReset` reports seconds (rounded up, clamped at zero) until the
oldest retained timestamp leaves the window.  `Date.now()` is an explicit
parameter; timestamps are naturals and the seconds computation is over the
integers, mirroring the JavaScript number arithmetic on these values.
-/

structure RateLimiter where
  maxRequests : Nat
  windowMs : Nat
  requests : List Nat
deriving DecidableEq, Repr

/-- `canMakeRequest()`: filter the window, admit iff under capacity,
recording the admission by pushing `now`. -/
def canMakeRequest (rl : RateLimiter) (now : Nat) : Bool × RateLimiter :=
  let reqs := rl.requests.filter (fun time => now - time < rl.windowMs)
  if reqs.length ≥ rl.maxRequests then (false, { rl with requests := reqs })
  else (true, { rl with requests := reqs ++ [now] })

/-- `getTimeUntilReset()`: 0 on an empty window, else
`Math.max(0, Math.ceil((windowMs - (Date.now() - min(requests))) / 1000))`;
`⌈a / 1000⌉ = (a + 999).ediv 1000` over the integers. -/
def getTimeUntilReset (rl : RateLimiter) (now : Nat) : Int :=
  match rl.requests with
  | [] => 0
  | t :: ts =>
    let oldest := ts.foldl min t
    max 0 (((rl.windowMs : Int) - ((now : Int) - (oldest : Int)) + 999).ediv 1000)

/-- Claim C8: with `maxRequests = 3, windowMs = 1000` and an empty window,
three admission checks at `t1 ≤ t2 ≤ t3` inside one window succeed and are
recorded, the fourth at `t4` in the same window is refused, and a later
check at `t5`, a full window after the last recorded admission, succeeds
again. -/
theorem rate_limiter_window (t1 t2 t3 t4 t5 : Nat)
    (h12 : t1 ≤ t2) (h23 : t2 ≤ t3) (h34 : t3 ≤ t4)
    (hw : t4 - t1 < 1000) (hr : t5 - t3 ≥ 1000) :
    (canMakeRequest ⟨3, 1000, []⟩ t1).1 = true ∧
    (canMakeRequest ⟨3, 1000, []⟩ t1).2 = ⟨3, 1000, [t1]⟩ ∧
    (canMakeRequest ⟨3, 1000, [t1]⟩ t2).1 = true ∧
    (canMakeRequest ⟨3, 1000, [t1]⟩ t2).2 = ⟨3, 1000, [t1, t2]⟩ ∧
    (canMakeRequest ⟨3, 1000, [t1, t2]⟩ t3).1 = true ∧
    (canMakeRequest ⟨3, 1000, [t1, t2]⟩ t3).2 = ⟨3, 1000, [t1, t2, t3]⟩ ∧
    (canMakeRequest ⟨3, 1000, [t1, t2, t3]⟩ t4).1 = false ∧
    (canMakeRequest ⟨3, 1000, [t1, t2, t3]⟩ t4).2 = ⟨3, 1000, [t1, t2, t3]⟩ ∧
    (canMakeRequest ⟨3, 1000, [t1, t2, t3]⟩ t5).1 = true := by
  have c21 : t2 - t1 < 1000 := by omega
  have c31 : t3 - t1 < 1000 := by omega
  have c32 : t3 - t2 < 1000 := by omega
  have c41 : t4 - t1 < 1000 := hw
  have c42 : t4 - t2 < 1000 := by omega
  have c43 : t4 - t3 < 1000 := by omega
  have n51 : ¬ (t5 - t1 < 1000) := by omega
  have n52 : ¬ (t5 - t2 < 1000) := by omega
  have n53 : ¬ (t5 - t3 < 1000) := by omega
  refine ⟨?_, ?_, ?_, ?_, ?_, ?_, ?_, ?_, ?_⟩ <;>
    simp [canMakeRequest, c21, c31, c32, c41, c42, c43, n51, n52, n53]

/-- Witness for `rate_limiter_window` at times 0, 1, 2, 3 and 1002. -/
theorem rate_limiter_window_witness :
    (canMakeRequest ⟨3, 1000, []⟩ 0).1 = true ∧
    (canMakeRequest ⟨3, 1000, []⟩ 0).2 = ⟨3, 1000, [0]⟩ ∧
    (canMakeRequest ⟨3, 1000, [0]⟩ 1).1 = true ∧
    (canMakeRequest ⟨3, 1000, [0]⟩ 1).2 = ⟨3, 1000, [0, 1]⟩ ∧
    (canMakeRequest ⟨3, 1000, [0, 1]⟩ 2).1 = true ∧
    (canMakeRequest ⟨3, 1000, [0, 1]⟩ 2).2 = ⟨3, 1000, [0, 1, 2]⟩ ∧
    (canMakeRequest ⟨3, 1000, [0, 1, 2]⟩ 3).1 = false ∧
    (canMakeRequest ⟨3, 1000, [0, 1, 2]⟩ 3).2 = ⟨3, 1000, [0, 1, 2]⟩ ∧
    (canMakeRequest ⟨3, 1000, [0, 1, 2]⟩ 1002).1 = true :=
  rate_limiter_window 0 1 2 3 1002 (by decide) (by decide) (by decide)
    (by decide) (by decide)

/-- Claim C9, counterexample: one timestamp just recorded, capacity 3 — the
window is under capacity, yet `getTimeUntilReset` returns 1 second, not 0;
the code returns 0 only on an empty window (or once the oldest timestamp
has already left it), never because the window is merely under capacity. -/
theorem timeUntilReset_positive_under_capacity :
    getTimeUntilReset ⟨3, 1000, [0]⟩ 0 = 1 ∧ ([0] : List Nat).length < 3 := by
  constructor
  · decide
  · decide

theorem foldl_min_spec (t : Nat) (ts : List Nat) :
    ts.foldl min t ∈ t :: ts ∧ ∀ x ∈ t :: ts, ts.foldl min t ≤ x := by
  induction ts generalizing t with
  | nil => simp
  | cons a as ih =>
    obtain ⟨hmem, hle⟩ := ih (min t a)
    have hfold : (a :: as).foldl min t = as.foldl min (min t a) := rfl
    constructor
    · rw [hfold]
      rcases List.mem_cons.1 hmem with h | h
      · rcases min_choice t a with h2 | h2
        · rw [h, h2]; simp
        · rw [h, h2]; simp
      · simp [h]
    · intro x hx
      rw [hfold]
      rcases List.mem_cons.1 hx with rfl | hx2
      · exact le_trans (hle (min x a) (List.mem_cons_self _ _)) (min_le_left _ _)
      · rcases List.mem_cons.1 hx2 with rfl | hx3
        · exact le_trans (hle (min t x) (List.mem_cons_self _ _)) (min_le_right _ _)
        · exact hle x (List.mem_cons_of_mem _ hx3)

/-- Claim C9, amended: on an empty window `getTimeUntilReset` returns 0;
on a nonempty window it returns the clamped ceiling, in seconds, of the
time until the oldest retained timestamp exits the window — in particular
0 once that timestamp's age reaches `windowMs` — regardless of whether the
window is under capacity. -/
theorem timeUntilReset_oldest_exit (rl : RateLimiter) (now : Nat) :
    (rl.requests = [] → getTimeUntilReset rl now = 0) ∧
    (∀ t ts, rl.requests = t :: ts →
      ∃ m, m ∈ rl.requests ∧ (∀ x ∈ rl.requests, m ≤ x) ∧
        getTimeUntilReset rl now =
          max 0 (((rl.windowMs : Int) - ((now : Int) - (m : Int)) + 999).ediv 1000) ∧
        ((now : Int) - (m : Int) ≥ (rl.windowMs : Int) →
          getTimeUntilReset rl now = 0)) := by
  constructor
  · intro hb
    unfold getTimeUntilReset
    rw [hb]
  · intro t ts hb
    obtain ⟨hmem, hle⟩ := foldl_min_spec t ts
    refine ⟨ts.foldl min t, by rw [hb]; exact hmem, by rw [hb]; exact hle, ?_, ?_⟩
    · unfold getTimeUntilReset
      rw [hb]
    · intro hage
      unfold getTimeUntilReset
      rw [hb]
      show max 0 (((rl.windowMs : Int) - ((now : Int) - ((ts.foldl min t : Nat) : Int)) + 999).ediv 1000) = 0
      have hx : (rl.windowMs : Int) - ((now : Int) - ((ts.foldl min t : Nat) : Int)) + 999 ≤ 999 := by
        omega
      have h2 := Int.ediv_le_ediv (by norm_num : (0 : Int) < 1000) hx
      have h3 : ((rl.windowMs : Int) - ((now : Int) - ((ts.foldl min t : Nat) : Int)) + 999).ediv 1000 ≤ 0 := by
        simpa using h2
      exact max_eq_left h3

/-- Witness for `timeUntilReset_oldest_exit` on the window `[5, 3]` with
capacity 3 read at time 4: the oldest retained timestamp is 3 and the
reported time is `max 0 ((1000 - (4 - 3) + 999).ediv 1000) = 1`. -/
theorem timeUntilReset_oldest_exit_witness :
    getTimeUntilReset ⟨3, 1000, [5, 3]⟩ 4 = 1 := by
  obtain ⟨m, hmem, hle, heq, _⟩ :=
    (timeUntilReset_oldest_exit ⟨3, 1000, [5, 3]⟩ 4).2 5 [3] rfl
  have hm : m = 3 := by
    have h5 := hle 5 (by simp)
    have h3 := hle 3 (by simp)
    rcases List.mem_cons.1 hmem with rfl | h
    · omega
    · simp at h
      omega
  rw [hm] at heq
  rw [heq]
  decide

end TTS
